import Mathlib

/-!
Shallow embedding of `src/util.rs` of libpnet: the `MacAddr` textual
parser/formatter, the `NetworkInterface` record with its `merge` logic, and the
POSIX and Windows variants of `get_network_interfaces_impl`.  Strings are
modelled as `List Char`, machine integers as `Nat` (all arithmetic involved
stays below the relevant bound), fallible operations as `Option`, and Rust
panics (`fail!`, `Option::unwrap` on `None`) as `Except RustPanic`.
-/

/-- A MAC address: `pub struct MacAddr(pub u8, pub u8, pub u8, pub u8, pub u8, pub u8)`.
Each component is a byte value, carried as a `Nat`. -/
structure MacAddr where
  b0 : Nat
  b1 : Nat
  b2 : Nat
  b3 : Nat
  b4 : Nat
  b5 : Nat
deriving DecidableEq, Repr

/-- Value of one hexadecimal digit character, as accepted by the standard
library's `from_str_radix(_, 16)` (digits `0`–`9`, `a`–`f`, `A`–`F`). -/
def hexDigitVal (c : Char) : Option Nat :=
  if 48 ≤ c.toNat ∧ c.toNat ≤ 57 then some (c.toNat - 48)
  else if 97 ≤ c.toNat ∧ c.toNat ≤ 102 then some (c.toNat - 87)
  else if 65 ≤ c.toNat ∧ c.toNat ≤ 70 then some (c.toNat - 55)
  else none

/-- Digit-accumulation loop of `from_str_radix(_, 16)` at type `u8`: digits are
consumed most-significant first and any accumulated value exceeding `0xFF` is
an overflow failure. -/
def radix16Loop : List Char → Nat → Option Nat
  | [], acc => some acc
  | c :: cs, acc =>
    match hexDigitVal c with
    | none => none
    | some d => if acc * 16 + d > 255 then none else radix16Loop cs (acc * 16 + d)

/-- `std::num::from_str_radix(split, 16) : Option<u8>`, following the 2014-era
`strconv::from_str_bytes_common` with `negative = false`: the empty string is
rejected, one leading `+` sign is accepted and skipped (so a bare `+` parses
as 0, while `-` falls through to digit parsing and is rejected since it is not
a digit), and the remaining characters must be hexadecimal digits whose value
fits in a byte. -/
def from_str_radix16 (g : List Char) : Option Nat :=
  match g with
  | [] => none
  | c :: rest => if c = '+' then radix16Loop rest 0 else radix16Loop (c :: rest) 0

/-- Rust `str::split(sep)`: splitting the empty string yields one empty group,
and every separator occurrence starts a new group. -/
def splitOnChar (sep : Char) : List Char → List (List Char)
  | [] => [[]]
  | c :: rest =>
    if c = sep then [] :: splitOnChar sep rest
    else
      match splitOnChar sep rest with
      | g :: gs => (c :: g) :: gs
      | [] => [[c]]

/-- Loop of `FromStr for MacAddr::from_str`: iterate over the groups carrying
the list of bytes parsed so far (the filled prefix of `parts`), reject a
seventh group, reject any group that fails hex parsing or is empty, and at the
end require that exactly six bytes were filled in. -/
def macFromStrLoop : List (List Char) → List Nat → Option MacAddr
  | [], parts =>
    match parts with
    | [a, b, c, d, e, f] => some ⟨a, b, c, d, e, f⟩
    | _ => none
  | g :: gs, parts =>
    if parts.length = 6 then none
    else
      match from_str_radix16 g with
      | some b => if g.length ≠ 0 then macFromStrLoop gs (parts ++ [b]) else none
      | none => none

/-- `FromStr for MacAddr`: split the input on `:` and run the parsing loop. -/
def MacAddr.from_str (s : List Char) : Option MacAddr :=
  macFromStrLoop (splitOnChar ':' s) []

/-- Lowercase hexadecimal digit character for a value below 16 (the digit map
used by `{:x}` formatting). -/
def toHexDigit : Nat → Char
  | 0 => '0'
  | 1 => '1'
  | 2 => '2'
  | 3 => '3'
  | 4 => '4'
  | 5 => '5'
  | 6 => '6'
  | 7 => '7'
  | 8 => '8'
  | 9 => '9'
  | 10 => 'a'
  | 11 => 'b'
  | 12 => 'c'
  | 13 => 'd'
  | 14 => 'e'
  | 15 => 'f'
  | _ => '0'

/-- Rust `{:x}` on a `u8`: unpadded lowercase hexadecimal, one digit for values
below `0x10` and two digits otherwise. -/
def u8ToHex (n : Nat) : List Char :=
  if n < 16 then [toHexDigit n] else [toHexDigit (n / 16), toHexDigit (n % 16)]

/-- `fmt::Show for MacAddr`: `write!(fmt, "{:x}:{:x}:{:x}:{:x}:{:x}:{:x}", a, b, c, d, e, f)`. -/
def MacAddr.show (m : MacAddr) : List Char :=
  u8ToHex m.b0 ++ ':' ::
    (u8ToHex m.b1 ++ ':' ::
      (u8ToHex m.b2 ++ ':' ::
        (u8ToHex m.b3 ++ ':' ::
          (u8ToHex m.b4 ++ ':' :: u8ToHex m.b5))))

/-- Specification-side value of a group of hexadecimal digits, most significant
first. -/
def hexGroupVal (g : List Char) : Nat :=
  g.foldl (fun acc c => acc * 16 + ((hexDigitVal c).getD 0)) 0

/-- Specification-side validity of one group: non-empty, all hexadecimal
digits, and value in the range `00`–`FF`. -/
def isValidHexByte (g : List Char) : Prop :=
  g ≠ [] ∧ (∀ c ∈ g, (hexDigitVal c).isSome) ∧ hexGroupVal g ≤ 255

instance : DecidablePred isValidHexByte := fun g => by
  unfold isValidHexByte; infer_instance

/-- Build a `MacAddr` from a list of exactly six byte values. -/
def mkMacOfList : List Nat → Option MacAddr
  | [a, b, c, d, e, f] => some ⟨a, b, c, d, e, f⟩
  | _ => none

/-- The sign handling of `from_str_bytes_common`: one leading `+` is skipped,
everything else is left for digit parsing. -/
def plusStripped (g : List Char) : List Char :=
  match g with
  | [] => []
  | c :: rest => if c = '+' then rest else c :: rest

/-- Amended specification-side value of one group: the value of its digits
after the optional sign. -/
def groupVal (g : List Char) : Nat :=
  hexGroupVal (plusStripped g)

/-- Amended specification-side validity of one group: non-empty, and after
stripping one optional leading `+` every remaining character is a hexadecimal
digit and the value is at most `0xFF` (so a bare `+` is valid with value 0). -/
def isValidByteGroup (g : List Char) : Prop :=
  g ≠ [] ∧ (∀ c ∈ plusStripped g, (hexDigitVal c).isSome) ∧ groupVal g ≤ 255

instance : DecidablePred isValidByteGroup := fun g => by
  unfold isValidByteGroup; infer_instance

/-- An IP address (`std::io::net::ip::IpAddr`): IPv4 or IPv6. -/
inductive IpAddr
  | Ipv4Addr (a b c d : Nat)
  | Ipv6Addr (a b c d e f g h : Nat)
deriving DecidableEq, Repr

/-- `pub struct NetworkInterface`: name, OS index, optional MAC, optional IP
list, and OS flag bitmask. -/
structure NetworkInterface where
  name : List Char
  index : Nat
  mac : Option MacAddr
  ips : Option (List IpAddr)
  flags : Nat
deriving DecidableEq, Repr

/-- A Rust panic: `Option::unwrap` called on `None`, or `fail!(msg)`.  An
`Except.error` carrying a `RustPanic` models abnormal termination of the
surrounding call, not a recoverable return value. -/
inductive RustPanic
  | unwrapNone
  | failMsg (msg : List Char)
deriving DecidableEq, Repr

/-- `Option::unwrap`: the contained value, or a panic. -/
def unwrap {α : Type} : Option α → Except RustPanic α
  | some a => Except.ok a
  | none => Except.error RustPanic.unwrapNone

/-- `NetworkInterface::mac_address`: `self.mac.unwrap()`. -/
def NetworkInterface.mac_address (i : NetworkInterface) : Except RustPanic MacAddr :=
  unwrap i.mac

/-- `merge(old, new)` from the POSIX enumerator: a present incoming hardware
address replaces the aggregate one, IP lists are concatenated when both sides
carry one, and the flag masks are combined with bitwise or. -/
def merge (old new : NetworkInterface) : NetworkInterface :=
  { old with
    mac :=
      match new.mac with
      | none => old.mac
      | some m => some m
    ips :=
      match old.ips, new.ips with
      | some old_ips, some new_ips => some (old_ips ++ new_ips)
      | _, _ => old.ips
    flags := Nat.lor old.flags new.flags }

/-- One node of the `getifaddrs` list, with the outcome of the
`sockaddr_to_network_addr` decode of its `ifa_addr` already applied: the
interface name, an optional hardware address, an optional IP address, and the
`ifa_flags` bitmask.  The raw `sockaddr` decode itself is platform-specific
pointer arithmetic over OS-owned memory and is abstracted to its
(optional mac, optional ip) result. -/
structure RawRecord where
  name : List Char
  mac : Option MacAddr
  ip : Option IpAddr
  flags : Nat
deriving DecidableEq, Repr

/-- The OS facilities the POSIX enumerator invokes: the `getifaddrs` record
list (`none` models a non-zero return code, i.e. failure) and the
`if_nametoindex` query. -/
structure PosixEnv where
  getifaddrs : Option (List RawRecord)
  if_nametoindex : List Char → Nat

/-- The transient single-record `NetworkInterface` built for one raw record:
index 0, the decoded optional MAC, a single-IP list when an IP was decoded,
and the record flags. -/
def rawToInterface (r : RawRecord) : NetworkInterface :=
  { name := r.name, index := 0, mac := r.mac, ips := r.ip.map (fun ip => [ip]),
    flags := r.flags }

/-- One iteration of the POSIX aggregation loop: merge the transient record
into every aggregate entry with the same name, and push it as a new entry when
no name matched. -/
def insertRecord (ifaces : List NetworkInterface) (r : RawRecord) : List NetworkInterface :=
  if ifaces.any (fun iface => decide (r.name = iface.name)) then
    ifaces.map (fun iface => if r.name = iface.name then merge iface (rawToInterface r) else iface)
  else
    ifaces.map (fun iface => if r.name = iface.name then merge iface (rawToInterface r) else iface)
      ++ [rawToInterface r]

/-- The POSIX aggregation loop over all raw records. -/
def posixBuild (recs : List RawRecord) : List NetworkInterface :=
  recs.foldl insertRecord []

/-- `get_network_interfaces_impl` under `#[cfg(not(windows))]`: return the
empty list when `getifaddrs` fails, otherwise aggregate all raw records and
then resolve the index of every aggregated entry via `if_nametoindex`. -/
def get_network_interfaces_posix (env : PosixEnv) : List NetworkInterface :=
  match env.getifaddrs with
  | none => []
  | some recs =>
    (posixBuild recs).map (fun iface => { iface with index := env.if_nametoindex iface.name })

/-- First-seen-order insertion of a name into the list of names already seen. -/
def firstSeenInsert (seen : List (List Char)) (n : List Char) : List (List Char) :=
  if n ∈ seen then seen else seen ++ [n]

/-- The distinct names of a record stream, in first-seen order. -/
def firstSeenNames (names : List (List Char)) : List (List Char) :=
  names.foldl firstSeenInsert []

/-- One `IP_ADAPTER_INFO` node of the Windows adapter chain: its `AdapterName`,
the fixed six-byte `Address` field, the textual IPv4 strings of its
`IpAddressList` chain, and its `Index`. -/
structure WinAdapter where
  AdapterName : List Char
  Address : MacAddr
  IpAddressList : List (List Char)
  Index : Nat
deriving DecidableEq, Repr

/-- The OS facilities the Windows enumerator invokes: the adapter chain from
`GetAdaptersInfo` (whose return code the source does not check), the name
buffer from `PacketGetAdapterNames` (`none` models a zero return, i.e.
failure), and the standard textual IP parser `from_str::<IpAddr>` applied to
each adapter address string, kept abstract. -/
structure WinEnv where
  adapters : List WinAdapter
  PacketGetAdapterNames : Option (List Char)
  parseIpAddr : List Char → Option IpAddr

/-- The inner `while ip_cursor.is_not_null()` loop: each textual address is
parsed with `from_str(ip_str.as_slice()).unwrap()`, so the first malformed
string panics. -/
def winParseIps (parse : List Char → Option IpAddr) : List (List Char) →
    Except RustPanic (List IpAddr)
  | [] => Except.ok []
  | s :: rest =>
    match parse s with
    | none => Except.error RustPanic.unwrapNone
    | some ip =>
      match winParseIps parse rest with
      | Except.ok ips => Except.ok (ip :: ips)
      | Except.error e => Except.error e

/-- Build the `NetworkInterface` of one adapter: MAC from the `Address` field,
IPs from the parsed `IpAddressList`, index straight from the adapter, flags
left at zero. -/
def winAdapterInterface (parse : List Char → Option IpAddr) (a : WinAdapter) :
    Except RustPanic NetworkInterface :=
  match winParseIps parse a.IpAddressList with
  | Except.error e => Except.error e
  | Except.ok ips =>
    Except.ok { name := a.AdapterName, index := a.Index, mac := some a.Address,
                ips := some ips, flags := 0 }

/-- The `while cursor.is_not_null()` walk over the adapter chain, producing
`all_ifaces`. -/
def winWalk (parse : List Char → Option IpAddr) : List WinAdapter →
    Except RustPanic (List NetworkInterface)
  | [] => Except.ok []
  | a :: rest =>
    match winAdapterInterface parse a with
    | Except.error e => Except.error e
    | Except.ok iface =>
      match winWalk parse rest with
      | Except.ok ifaces => Except.ok (iface :: ifaces)
      | Except.error e => Except.error e

/-- `buf_str.split_str("\x00\x00").next()`: the block before the first double
NUL, or the whole buffer when no double NUL occurs. -/
def takeUntilDoubleNul : List Char → List Char
  | '\x00' :: '\x00' :: _ => []
  | c :: rest => c :: takeUntilDoubleNul rest
  | [] => []

/-- Keep only capture-capable devices: for each device name, the first adapter
record whose short name is a suffix of the device name, cloned with its name
replaced by the full device name; device names without a match contribute
nothing. -/
def winSelect (all_ifaces : List NetworkInterface) (names : List (List Char)) :
    List NetworkInterface :=
  names.foldl
    (fun vec nm =>
      match all_ifaces.find? (fun x => x.name.isSuffixOf nm) with
      | some x => vec ++ [{ x with name := nm }]
      | none => vec)
    []

/-- `get_network_interfaces_impl` under `#[cfg(windows)]`: walk the adapter
chain, then query `PacketGetAdapterNames` — `fail!` when it reports failure —
and return the adapters matched by a capture-capable device name. -/
def get_network_interfaces_windows (env : WinEnv) : Except RustPanic (List NetworkInterface) :=
  match winWalk env.parseIpAddr env.adapters with
  | Except.error e => Except.error e
  | Except.ok all_ifaces =>
    match env.PacketGetAdapterNames with
    | none => Except.error (RustPanic.failMsg "FIXME [windows] unable to get interface list".data)
    | some buf =>
      Except.ok (winSelect all_ifaces (splitOnChar '\x00' (takeUntilDoubleNul buf)))

/-- Sample MAC for concrete instantiations. -/
def macSample : MacAddr := ⟨0, 1, 2, 3, 4, 5⟩

/-- Sample IPv4 address A. -/
def ipSampleA : IpAddr := IpAddr.Ipv4Addr 10 0 0 1

/-- Sample IPv4 address B. -/
def ipSampleB : IpAddr := IpAddr.Ipv4Addr 10 0 0 2

/-- Sample aggregate entry carrying the single IP A. -/
def ifaceSampleA : NetworkInterface := ⟨"eth0".data, 0, none, some [ipSampleA], 1⟩

/-- Sample incoming entry carrying a MAC and the single IP B. -/
def ifaceSampleB : NetworkInterface := ⟨"eth0".data, 0, some macSample, some [ipSampleB], 2⟩

/-- Sample aggregate entry with an absent IP list. -/
def ifaceSampleNoIps : NetworkInterface := ⟨"eth0".data, 0, some macSample, none, 4⟩

/-- Sample raw link-layer record for eth0. -/
def rawSampleA : RawRecord := ⟨"eth0".data, some macSample, none, 1⟩

/-- Sample raw IP record for lo. -/
def rawSampleB : RawRecord := ⟨"lo".data, none, some ipSampleA, 8⟩

/-- Sample raw IP record for eth0, arriving after the link-layer one. -/
def rawSampleC : RawRecord := ⟨"eth0".data, none, some ipSampleB, 2⟩

/-- Sample POSIX environment whose record list repeats the name eth0. -/
def posixEnvSample : PosixEnv := ⟨some [rawSampleA, rawSampleB, rawSampleC], fun _ => 7⟩

/-- Sample POSIX environment whose `getifaddrs` fails. -/
def posixEnvFailing : PosixEnv := ⟨none, fun _ => 7⟩

/-- Sample Windows adapter carrying one textual address. -/
def winAdapterSample : WinAdapter := ⟨"adapter0".data, macSample, ["256.0.0.1".data], 3⟩

/-- Sample Windows environment whose IP parser rejects the sample string. -/
def winEnvBadIp : WinEnv := ⟨[winAdapterSample], some [], fun _ => none⟩

/-- Sample Windows environment whose `PacketGetAdapterNames` fails. -/
def winEnvNoNames : WinEnv := ⟨[], none, fun _ => some ipSampleA⟩

theorem hexGroupVal_mono (cs : List Char) (x : Nat) :
    x ≤ cs.foldl (fun acc c => acc * 16 + ((hexDigitVal c).getD 0)) x := by
  induction cs generalizing x with
  | nil => simp
  | cons c cs ih =>
    refine le_trans ?_ (ih (x * 16 + ((hexDigitVal c).getD 0)))
    omega

theorem radix16Loop_eq (cs : List Char) (x : Nat) (hx : x ≤ 255) :
    radix16Loop cs x =
      if (∀ c ∈ cs, (hexDigitVal c).isSome) ∧
          cs.foldl (fun acc c => acc * 16 + ((hexDigitVal c).getD 0)) x ≤ 255 then
        some (cs.foldl (fun acc c => acc * 16 + ((hexDigitVal c).getD 0)) x)
      else none := by
  induction cs generalizing x with
  | nil => simp [radix16Loop, hx]
  | cons c cs ih =>
    simp only [radix16Loop, List.forall_mem_cons, List.foldl_cons]
    cases h : hexDigitVal c with
    | none => simp [h]
    | some d =>
      simp only [h, Option.isSome_some, Option.getD_some, true_and]
      by_cases hov : x * 16 + d > 255
      · have hge := hexGroupVal_mono cs (x * 16 + d)
        rw [if_pos hov, if_neg ?_]
        rintro ⟨-, hc⟩
        omega
      · rw [if_neg hov, ih _ (by omega)]

/-- `from_str_radix(_, 16)` succeeds exactly on non-empty groups that are all
hexadecimal digits after the optional leading `+`, with byte-bounded value,
and then returns that value. -/
theorem from_str_radix16_eq (g : List Char) :
    from_str_radix16 g = if isValidByteGroup g then some (groupVal g) else none := by
  cases g with
  | nil => simp [from_str_radix16, isValidByteGroup]
  | cons c cs =>
    simp only [from_str_radix16]
    by_cases hc : c = '+'
    · subst hc
      rw [if_pos rfl, radix16Loop_eq _ _ (by omega)]
      have hbody : plusStripped ('+' :: cs) = cs := by simp [plusStripped]
      refine if_congr ?_ ?_ rfl
      · unfold isValidByteGroup groupVal hexGroupVal
        rw [hbody]
        simp
      · unfold groupVal hexGroupVal
        rw [hbody]
    · rw [if_neg hc, radix16Loop_eq _ _ (by omega)]
      have hbody : plusStripped (c :: cs) = c :: cs := by simp [plusStripped, hc]
      refine if_congr ?_ ?_ rfl
      · unfold isValidByteGroup groupVal hexGroupVal
        rw [hbody]
        simp
      · unfold groupVal hexGroupVal
        rw [hbody]

theorem mkMacOfList_eq_none {l : List Nat} (h : l.length ≠ 6) : mkMacOfList l = none := by
  rcases l with _ | ⟨a, _ | ⟨b, _ | ⟨c, _ | ⟨d, _ | ⟨e, _ | ⟨f, _ | ⟨g, l⟩⟩⟩⟩⟩⟩⟩ <;>
    simp_all [mkMacOfList]

theorem macFromStrLoop_eq_none {gs : List (List Char)} {parts : List Nat}
    (h : gs.length + parts.length ≠ 6) : macFromStrLoop gs parts = none := by
  induction gs generalizing parts with
  | nil => simpa [macFromStrLoop] using mkMacOfList_eq_none (by simpa using h)
  | cons g gs ih =>
    simp only [macFromStrLoop]
    by_cases h6 : parts.length = 6
    · simp [h6]
    · rw [if_neg h6]
      cases hp : from_str_radix16 g with
      | none => rfl
      | some b =>
        simp only
        by_cases hg : g.length ≠ 0
        · rw [if_pos hg]
          exact ih (by simp at h ⊢; omega)
        · rw [if_neg hg]

theorem macFromStrLoop_spec (gs : List (List Char)) (parts : List Nat) :
    macFromStrLoop gs parts =
      if ∀ g ∈ gs, isValidByteGroup g then mkMacOfList (parts ++ gs.map groupVal)
      else none := by
  induction gs generalizing parts with
  | nil =>
    simp only [List.not_mem_nil, false_implies, implies_true, if_pos, List.map_nil,
      List.append_nil]
    rcases parts with _ | ⟨a, _ | ⟨b, _ | ⟨c, _ | ⟨d, _ | ⟨e, _ | ⟨f, _ | ⟨g, l⟩⟩⟩⟩⟩⟩⟩ <;>
      rfl
  | cons g gs ih =>
    by_cases hv : isValidByteGroup g
    · have hsome : from_str_radix16 g = some (groupVal g) := by
        rw [from_str_radix16_eq, if_pos hv]
      have hg : g.length ≠ 0 := fun hc => hv.1 (List.length_eq_zero.mp hc)
      by_cases h6 : parts.length = 6
      · rw [show macFromStrLoop (g :: gs) parts = none from by
          simp [macFromStrLoop, h6]]
        split
        · rw [mkMacOfList_eq_none (by simp; omega)]
        · rfl
      · simp only [macFromStrLoop, if_neg h6, hsome, if_pos hg, ih,
          List.forall_mem_cons, hv, true_and, List.map_cons]
        split
        · simp
        · rfl
    · have hnone : from_str_radix16 g = none := by
        rw [from_str_radix16_eq, if_neg hv]
      simp [macFromStrLoop, hnone, List.forall_mem_cons, hv]

example : MacAddr.from_str "00:00:00:00:00:00".data = some ⟨0, 0, 0, 0, 0, 0⟩ := by decide
example : MacAddr.from_str "ff:ff:ff:ff:ff:ff".data =
    some ⟨0xFF, 0xFF, 0xFF, 0xFF, 0xFF, 0xFF⟩ := by decide
example : MacAddr.from_str "12:34:56:78:90:ab".data =
    some ⟨0x12, 0x34, 0x56, 0x78, 0x90, 0xAB⟩ := by decide
example : MacAddr.from_str "::::::".data = none := by decide
example : MacAddr.from_str "0::::::".data = none := by decide
example : MacAddr.from_str "::::0::".data = none := by decide
example : MacAddr.from_str "12:34:56:78".data = none := by decide
example : MacAddr.from_str "12:34:56:78:".data = none := by decide
example : MacAddr.from_str "12:34:56:78:90".data = none := by decide
example : MacAddr.from_str "12:34:56:78:90:".data = none := by decide
example : MacAddr.from_str "12:34:56:78:90:00:00".data = none := by decide
example : MacAddr.from_str "xx:xx:xx:xx:xx:xx".data = none := by decide
example : MacAddr.from_str "+1:2:3:4:5:6".data = some ⟨1, 2, 3, 4, 5, 6⟩ := by decide
example : MacAddr.from_str "+:+:+:+:+:+".data = some ⟨0, 0, 0, 0, 0, 0⟩ := by decide
example : MacAddr.from_str "-1:2:3:4:5:6".data = none := by decide
example : MacAddr.from_str "++1:2:3:4:5:6".data = none := by decide

theorem splitOnChar_of_no_sep (sep : Char) (a : List Char) (h : ∀ c ∈ a, c ≠ sep) :
    splitOnChar sep a = [a] := by
  induction a with
  | nil => rfl
  | cons c rest ih =>
    have hc : c ≠ sep := h c (by simp)
    simp only [splitOnChar, if_neg hc]
    rw [ih (fun x hx => h x (by simp [hx]))]

theorem splitOnChar_append_sep (sep : Char) (a b : List Char) (h : ∀ c ∈ a, c ≠ sep) :
    splitOnChar sep (a ++ sep :: b) = a :: splitOnChar sep b := by
  induction a with
  | nil => simp [splitOnChar]
  | cons c rest ih =>
    have hc : c ≠ sep := h c (by simp)
    simp only [List.cons_append, splitOnChar, if_neg hc, List.append_eq]
    rw [ih (fun x hx => h x (by simp [hx]))]

theorem toHexDigit_ne_colon (k : Nat) (hk : k < 16) : toHexDigit k ≠ ':' := by
  interval_cases k <;> decide

theorem hexDigitVal_toHexDigit (k : Nat) (hk : k < 16) :
    hexDigitVal (toHexDigit k) = some k := by
  interval_cases k <;> decide

theorem u8ToHex_ne_colon (n : Nat) (h : n ≤ 255) : ∀ c ∈ u8ToHex n, c ≠ ':' := by
  intro c hc
  unfold u8ToHex at hc
  by_cases h16 : n < 16
  · rw [if_pos h16] at hc
    rw [List.mem_singleton] at hc
    exact hc ▸ toHexDigit_ne_colon n h16
  · rw [if_neg h16] at hc
    rcases List.mem_cons.mp hc with rfl | hc2
    · exact toHexDigit_ne_colon (n / 16) (by omega)
    · rw [List.mem_singleton] at hc2
      exact hc2 ▸ toHexDigit_ne_colon (n % 16) (by omega)

theorem u8ToHex_ne_nil (n : Nat) : u8ToHex n ≠ [] := by
  unfold u8ToHex
  split <;> simp

theorem hexGroupVal_u8ToHex (n : Nat) (h : n ≤ 255) : hexGroupVal (u8ToHex n) = n := by
  unfold u8ToHex hexGroupVal
  by_cases h16 : n < 16
  · rw [if_pos h16]
    simp [hexDigitVal_toHexDigit n h16]
  · rw [if_neg h16]
    simp only [List.foldl_cons, List.foldl_nil,
      hexDigitVal_toHexDigit (n / 16) (by omega), hexDigitVal_toHexDigit (n % 16) (by omega),
      Option.getD_some]
    omega

theorem isValidHexByte_u8ToHex (n : Nat) (h : n ≤ 255) : isValidHexByte (u8ToHex n) := by
  refine ⟨u8ToHex_ne_nil n, ?_, by rw [hexGroupVal_u8ToHex n h]; exact h⟩
  intro c hc
  unfold u8ToHex at hc
  by_cases h16 : n < 16
  · rw [if_pos h16, List.mem_singleton] at hc
    rw [hc, hexDigitVal_toHexDigit n h16]
    rfl
  · rw [if_neg h16] at hc
    rcases List.mem_cons.mp hc with rfl | hc2
    · rw [hexDigitVal_toHexDigit (n / 16) (by omega)]
      rfl
    · rw [List.mem_singleton] at hc2
      rw [hc2, hexDigitVal_toHexDigit (n % 16) (by omega)]
      rfl

theorem toHexDigit_ne_plus (k : Nat) : toHexDigit k ≠ '+' := by
  unfold toHexDigit
  split <;> decide

theorem plusStripped_u8ToHex (n : Nat) : plusStripped (u8ToHex n) = u8ToHex n := by
  unfold u8ToHex
  by_cases h16 : n < 16
  · rw [if_pos h16]
    simp [plusStripped, toHexDigit_ne_plus n]
  · rw [if_neg h16]
    simp [plusStripped, toHexDigit_ne_plus (n / 16)]

theorem groupVal_u8ToHex (n : Nat) (h : n ≤ 255) : groupVal (u8ToHex n) = n := by
  unfold groupVal
  rw [plusStripped_u8ToHex, hexGroupVal_u8ToHex n h]

theorem isValidByteGroup_u8ToHex (n : Nat) (h : n ≤ 255) :
    isValidByteGroup (u8ToHex n) := by
  obtain ⟨hne, hdig, hval⟩ := isValidHexByte_u8ToHex n h
  refine ⟨hne, ?_, ?_⟩
  · rw [plusStripped_u8ToHex]
    exact hdig
  · rw [groupVal_u8ToHex n h]
    exact h

theorem splitOnChar_show (m : MacAddr)
    (h0 : m.b0 ≤ 255) (h1 : m.b1 ≤ 255) (h2 : m.b2 ≤ 255)
    (h3 : m.b3 ≤ 255) (h4 : m.b4 ≤ 255) (h5 : m.b5 ≤ 255) :
    splitOnChar ':' (MacAddr.show m) =
      [u8ToHex m.b0, u8ToHex m.b1, u8ToHex m.b2, u8ToHex m.b3, u8ToHex m.b4, u8ToHex m.b5] := by
  unfold MacAddr.show
  rw [splitOnChar_append_sep ':' _ _ (u8ToHex_ne_colon _ h0),
    splitOnChar_append_sep ':' _ _ (u8ToHex_ne_colon _ h1),
    splitOnChar_append_sep ':' _ _ (u8ToHex_ne_colon _ h2),
    splitOnChar_append_sep ':' _ _ (u8ToHex_ne_colon _ h3),
    splitOnChar_append_sep ':' _ _ (u8ToHex_ne_colon _ h4),
    splitOnChar_of_no_sep ':' _ (u8ToHex_ne_colon _ h5)]

/-- C2: for any `MacAddr` with byte-bounded components, parsing its `{:x}`
formatted text (six lowercase unpadded hexadecimal groups joined by `:`)
succeeds and returns the same value. -/
theorem c2_from_str_show_roundtrip (m : MacAddr)
    (h0 : m.b0 ≤ 255) (h1 : m.b1 ≤ 255) (h2 : m.b2 ≤ 255)
    (h3 : m.b3 ≤ 255) (h4 : m.b4 ≤ 255) (h5 : m.b5 ≤ 255) :
    MacAddr.from_str (MacAddr.show m) = some m := by
  unfold MacAddr.from_str
  rw [splitOnChar_show m h0 h1 h2 h3 h4 h5, macFromStrLoop_spec, if_pos ?_]
  · simp only [List.map_cons, List.map_nil, List.nil_append,
      groupVal_u8ToHex _ h0, groupVal_u8ToHex _ h1, groupVal_u8ToHex _ h2,
      groupVal_u8ToHex _ h3, groupVal_u8ToHex _ h4, groupVal_u8ToHex _ h5]
    rfl
  · simp only [List.forall_mem_cons, List.not_mem_nil, false_implies, implies_true,
      and_true]
    exact ⟨isValidByteGroup_u8ToHex _ h0, isValidByteGroup_u8ToHex _ h1,
      isValidByteGroup_u8ToHex _ h2, isValidByteGroup_u8ToHex _ h3,
      isValidByteGroup_u8ToHex _ h4, isValidByteGroup_u8ToHex _ h5⟩

/-- Witness for C2 at a concrete MAC exercising one-digit and two-digit
groups. -/
theorem c2_from_str_show_roundtrip_witness :
    MacAddr.from_str (MacAddr.show ⟨0x12, 0x3, 0x56, 0x0, 0x90, 0xAB⟩) =
      some ⟨0x12, 0x3, 0x56, 0x0, 0x90, 0xAB⟩ :=
  c2_from_str_show_roundtrip ⟨0x12, 0x3, 0x56, 0x0, 0x90, 0xAB⟩
    (by decide) (by decide) (by decide) (by decide) (by decide) (by decide)

/-- C3: merging an incoming record into the aggregate takes the incoming
hardware address when present and keeps the existing one when absent
(last-write-wins), concatenates the incoming IP list after the existing one
when both sides carry a list (so IPs arriving in order A, B stay in that
order), and combines the flags with bitwise or. -/
theorem c3_merge_rule (old new : NetworkInterface) :
    (∀ m, new.mac = some m → (merge old new).mac = some m) ∧
    (new.mac = none → (merge old new).mac = old.mac) ∧
    (∀ old_ips new_ips, old.ips = some old_ips → new.ips = some new_ips →
      (merge old new).ips = some (old_ips ++ new_ips)) ∧
    (merge old new).flags = Nat.lor old.flags new.flags := by
  refine ⟨?_, ?_, ?_, rfl⟩
  · intro m hm
    simp [merge, hm]
  · intro hm
    simp [merge, hm]
  · intro old_ips new_ips ho hn
    simp [merge, ho, hn]

/-- Witness for C3 at concrete records: the IPs arriving in order A then B
yield exactly the list A, B. -/
theorem c3_merge_rule_witness :
    (merge ifaceSampleA ifaceSampleB).ips = some [ipSampleA, ipSampleB] :=
  (c3_merge_rule ifaceSampleA ifaceSampleB).2.2.1 [ipSampleA] [ipSampleB] rfl rfl

/-- C9: when the aggregate IP list is absent, merge leaves it absent and
discards any incoming IPs — concatenation happens only when both sides already
carry an IP list. -/
theorem c9_merge_absent_ips (old new : NetworkInterface) (h : old.ips = none) :
    (merge old new).ips = none := by
  cases hn : new.ips <;> simp [merge, h, hn]

/-- Witness for C9: a link-layer-only aggregate entry merged with an incoming
IP record keeps an absent IP list. -/
theorem c9_merge_absent_ips_witness :
    (merge ifaceSampleNoIps ifaceSampleB).ips = none :=
  c9_merge_absent_ips ifaceSampleNoIps ifaceSampleB rfl

/-- C6: `mac_address()` returns the hardware address when one is present and
panics (`unwrap` on `None`) when it is absent, never silently producing a
default. -/
theorem c6_mac_address_unwrap (i : NetworkInterface) :
    (∀ m, i.mac = some m → i.mac_address = Except.ok m) ∧
    (i.mac = none → i.mac_address = Except.error RustPanic.unwrapNone) := by
  constructor
  · intro m hm
    simp [NetworkInterface.mac_address, unwrap, hm]
  · intro hm
    simp [NetworkInterface.mac_address, unwrap, hm]

/-- Witness for C6 at a record that carries a MAC. -/
theorem c6_mac_address_unwrap_witness :
    ifaceSampleB.mac_address = Except.ok macSample :=
  (c6_mac_address_unwrap ifaceSampleB).1 macSample rfl

/-- C5: when `getifaddrs` reports failure, the POSIX enumeration returns the
empty list rather than signaling or propagating an error. -/
theorem c5_posix_fail_soft (env : PosixEnv) (h : env.getifaddrs = none) :
    get_network_interfaces_posix env = [] := by
  simp [get_network_interfaces_posix, h]

/-- Witness for C5 at a failing environment. -/
theorem c5_posix_fail_soft_witness :
    get_network_interfaces_posix posixEnvFailing = [] :=
  c5_posix_fail_soft posixEnvFailing rfl

theorem merge_name (old new : NetworkInterface) : (merge old new).name = old.name := rfl

theorem merge_index (old new : NetworkInterface) : (merge old new).index = old.index := rfl

theorem insertRecord_merged_names (ifaces : List NetworkInterface) (r : RawRecord) :
    ((ifaces.map (fun iface =>
        if r.name = iface.name then merge iface (rawToInterface r) else iface)).map
      (fun i => i.name)) = ifaces.map (fun i => i.name) := by
  rw [List.map_map]
  apply List.map_congr_left
  intro i hi
  simp only [Function.comp]
  by_cases h : r.name = i.name <;> simp [h, merge_name]

theorem insertRecord_any_iff (ifaces : List NetworkInterface) (r : RawRecord) :
    (ifaces.any (fun iface => decide (r.name = iface.name)) = true) ↔
      r.name ∈ ifaces.map (fun i => i.name) := by
  rw [List.any_eq_true]
  constructor
  · rintro ⟨i, hi, hd⟩
    exact List.mem_map.mpr ⟨i, hi, (of_decide_eq_true hd).symm⟩
  · intro h
    obtain ⟨i, hi, hname⟩ := List.mem_map.mp h
    exact ⟨i, hi, decide_eq_true hname.symm⟩

theorem insertRecord_map_name (ifaces : List NetworkInterface) (r : RawRecord) :
    (insertRecord ifaces r).map (fun i => i.name) =
      firstSeenInsert (ifaces.map (fun i => i.name)) r.name := by
  by_cases hf : r.name ∈ ifaces.map (fun i => i.name)
  · rw [insertRecord, if_pos ((insertRecord_any_iff ifaces r).mpr hf),
      firstSeenInsert, if_pos hf, insertRecord_merged_names]
  · rw [insertRecord,
      if_neg (fun hc => hf ((insertRecord_any_iff ifaces r).mp hc)),
      firstSeenInsert, if_neg hf, List.map_append, insertRecord_merged_names]
    rfl

theorem insertRecord_not_found (ifaces : List NetworkInterface) (r : RawRecord)
    (h : r.name ∉ ifaces.map (fun i => i.name)) :
    insertRecord ifaces r = ifaces ++ [rawToInterface r] := by
  have hmap : ifaces.map (fun iface =>
      if r.name = iface.name then merge iface (rawToInterface r) else iface) = ifaces := by
    conv_rhs => rw [← List.map_id ifaces]
    apply List.map_congr_left
    intro i hi
    simp only [id]
    rw [if_neg (fun hc => h (List.mem_map.mpr ⟨i, hi, hc.symm⟩))]
  rw [insertRecord, if_neg (fun hc => h ((insertRecord_any_iff ifaces r).mp hc)), hmap]

theorem insertRecord_found_names (ifaces : List NetworkInterface) (r : RawRecord)
    (h : r.name ∈ ifaces.map (fun i => i.name)) :
    (insertRecord ifaces r).map (fun i => i.name) = ifaces.map (fun i => i.name) := by
  rw [insertRecord_map_name, firstSeenInsert, if_pos h]

theorem posixBuild_names_general (recs : List RawRecord) :
    ∀ acc : List NetworkInterface,
      (recs.foldl insertRecord acc).map (fun i => i.name) =
        (recs.map (fun r => r.name)).foldl firstSeenInsert (acc.map (fun i => i.name)) := by
  induction recs with
  | nil => intro acc; rfl
  | cons r recs ih =>
    intro acc
    simp only [List.foldl_cons, List.map_cons]
    rw [ih, insertRecord_map_name]

theorem firstSeenInsert_nodup {seen : List (List Char)} (h : seen.Nodup) (n : List Char) :
    (firstSeenInsert seen n).Nodup := by
  unfold firstSeenInsert
  by_cases hm : n ∈ seen
  · rw [if_pos hm]
    exact h
  · rw [if_neg hm]
    refine List.Nodup.append h (List.nodup_singleton n) ?_
    intro x hx hx2
    rw [List.mem_singleton] at hx2
    exact hm (hx2 ▸ hx)

theorem foldl_firstSeenInsert_nodup (names : List (List Char)) :
    ∀ seen : List (List Char), seen.Nodup → (names.foldl firstSeenInsert seen).Nodup := by
  induction names with
  | nil => intro seen h; exact h
  | cons n names ih =>
    intro seen h
    exact ih _ (firstSeenInsert_nodup h n)

theorem posix_result_names (env : PosixEnv) (recs : List RawRecord)
    (h : env.getifaddrs = some recs) :
    (get_network_interfaces_posix env).map (fun i => i.name) =
      firstSeenNames (recs.map (fun r => r.name)) := by
  simp only [get_network_interfaces_posix, h, List.map_map]
  rw [show ((fun i : NetworkInterface => i.name) ∘
      (fun iface => { iface with index := env.if_nametoindex iface.name })) =
      (fun i : NetworkInterface => i.name) from funext (fun i => rfl)]
  rw [posixBuild, posixBuild_names_general recs []]
  rfl

/-- C4: the POSIX enumeration result has pairwise-distinct names, in first-seen
order across the raw records; a raw record whose name matches an existing
aggregate entry is merged into it (adding no entry), and a record with a fresh
name is appended as a new entry. -/
theorem c4_posix_distinct_names (env : PosixEnv) (recs : List RawRecord)
    (h : env.getifaddrs = some recs) :
    ((get_network_interfaces_posix env).map (fun i => i.name)).Nodup ∧
    (get_network_interfaces_posix env).map (fun i => i.name) =
      firstSeenNames (recs.map (fun r => r.name)) ∧
    (∀ (ifaces : List NetworkInterface) (r : RawRecord),
      r.name ∉ ifaces.map (fun i => i.name) →
        insertRecord ifaces r = ifaces ++ [rawToInterface r]) ∧
    (∀ (ifaces : List NetworkInterface) (r : RawRecord),
      r.name ∈ ifaces.map (fun i => i.name) →
        (insertRecord ifaces r).map (fun i => i.name) = ifaces.map (fun i => i.name)) := by
  refine ⟨?_, posix_result_names env recs h, insertRecord_not_found, insertRecord_found_names⟩
  rw [posix_result_names env recs h]
  exact foldl_firstSeenInsert_nodup _ [] List.nodup_nil

/-- Witness for C4 at a record stream that repeats the name eth0. -/
theorem c4_posix_distinct_names_witness :
    ((get_network_interfaces_posix posixEnvSample).map (fun i => i.name)).Nodup :=
  (c4_posix_distinct_names posixEnvSample [rawSampleA, rawSampleB, rawSampleC] rfl).1

theorem insertRecord_index_zero (ifaces : List NetworkInterface) (r : RawRecord)
    (h : ∀ i ∈ ifaces, i.index = 0) :
    ∀ i ∈ insertRecord ifaces r, i.index = 0 := by
  intro i hi
  unfold insertRecord at hi
  split at hi
  · obtain ⟨j, hj, rfl⟩ := List.mem_map.mp hi
    by_cases hc : r.name = j.name <;> simp [hc, merge_index, h j hj]
  · rcases List.mem_append.mp hi with hi2 | hi2
    · obtain ⟨j, hj, rfl⟩ := List.mem_map.mp hi2
      by_cases hc : r.name = j.name <;> simp [hc, merge_index, h j hj]
    · rw [List.mem_singleton] at hi2
      rw [hi2]
      rfl

theorem posixBuild_index_zero (recs : List RawRecord) :
    ∀ acc : List NetworkInterface, (∀ i ∈ acc, i.index = 0) →
      ∀ i ∈ recs.foldl insertRecord acc, i.index = 0 := by
  induction recs with
  | nil => intro acc hacc; simpa using hacc
  | cons r recs ih =>
    intro acc hacc
    simp only [List.foldl_cons]
    exact ih _ (insertRecord_index_zero acc r hacc)

/-- C7: the aggregation pass leaves every entry at the index-0 sentinel, and
the subsequent resolution pass produces the result by one `if_nametoindex`
query per aggregated (distinct-name) entry — even for a name that appeared in
two raw records. -/
theorem c7_index_resolution (env : PosixEnv) (recs : List RawRecord)
    (h : env.getifaddrs = some recs) :
    (∀ iface ∈ posixBuild recs, iface.index = 0) ∧
    get_network_interfaces_posix env =
      (posixBuild recs).map
        (fun iface => { iface with index := env.if_nametoindex iface.name }) := by
  constructor
  · exact posixBuild_index_zero recs [] (by simp)
  · simp only [get_network_interfaces_posix, h]

/-- Witness for C7 at a record stream that repeats the name eth0. -/
theorem c7_index_resolution_witness :
    get_network_interfaces_posix posixEnvSample =
      (posixBuild [rawSampleA, rawSampleB, rawSampleC]).map
        (fun iface => { iface with index := posixEnvSample.if_nametoindex iface.name }) :=
  (c7_index_resolution posixEnvSample [rawSampleA, rawSampleB, rawSampleC] rfl).2

theorem winParseIps_error (parse : List Char → Option IpAddr) (l : List (List Char))
    (hs : ∃ s ∈ l, parse s = none) :
    winParseIps parse l = Except.error RustPanic.unwrapNone := by
  induction l with
  | nil => simp at hs
  | cons x xs ih =>
    obtain ⟨s, hmem, hnone⟩ := hs
    cases hx : parse x with
    | none => simp [winParseIps, hx]
    | some v =>
      rcases List.mem_cons.mp hmem with rfl | hmem2
      · rw [hx] at hnone
        exact absurd hnone (by simp)
      · simp [winParseIps, hx, ih ⟨s, hmem2, hnone⟩]

theorem winParseIps_error_shape (parse : List Char → Option IpAddr) :
    ∀ (l : List (List Char)) (e : RustPanic),
      winParseIps parse l = Except.error e → e = RustPanic.unwrapNone := by
  intro l
  induction l with
  | nil =>
    intro e h
    simp [winParseIps] at h
  | cons x xs ih =>
    intro e h
    unfold winParseIps at h
    cases hx : parse x with
    | none =>
      rw [hx] at h
      simp at h
      exact h.symm
    | some v =>
      rw [hx] at h
      cases hr : winParseIps parse xs with
      | ok ips =>
        rw [hr] at h
        simp at h
      | error e2 =>
        rw [hr] at h
        simp at h
        exact h ▸ ih e2 hr

theorem winAdapterInterface_error_shape (parse : List Char → Option IpAddr)
    (a : WinAdapter) (e : RustPanic)
    (h : winAdapterInterface parse a = Except.error e) : e = RustPanic.unwrapNone := by
  unfold winAdapterInterface at h
  cases hp : winParseIps parse a.IpAddressList with
  | error e2 =>
    rw [hp] at h
    simp at h
    exact h ▸ winParseIps_error_shape parse a.IpAddressList e2 hp
  | ok ips =>
    rw [hp] at h
    simp at h

theorem winWalk_error (parse : List Char → Option IpAddr) (adapters : List WinAdapter)
    (hs : ∃ a ∈ adapters, ∃ s ∈ a.IpAddressList, parse s = none) :
    winWalk parse adapters = Except.error RustPanic.unwrapNone := by
  induction adapters with
  | nil => simp at hs
  | cons a rest ih =>
    obtain ⟨b, hmem, hbad⟩ := hs
    cases hw : winAdapterInterface parse a with
    | error e =>
      have he := winAdapterInterface_error_shape parse a e hw
      simp [winWalk, hw, he]
    | ok iface =>
      have hbrest : ∃ b ∈ rest, ∃ s ∈ b.IpAddressList, parse s = none := by
        rcases List.mem_cons.mp hmem with rfl | h2
        · exfalso
          unfold winAdapterInterface at hw
          rw [winParseIps_error parse _ hbad] at hw
          exact Except.noConfusion hw
        · exact ⟨b, h2, hbad⟩
      simp [winWalk, hw, ih hbrest]

/-- C8: when `PacketGetAdapterNames` reports failure, the Windows enumeration
terminates abnormally (with a panic — the `fail!`, or an `unwrap` panic raised
earlier in the adapter walk), never with a normal result such as an empty
list. -/
theorem c8_windows_names_query_fatal (env : WinEnv)
    (h : env.PacketGetAdapterNames = none) :
    ∃ p, get_network_interfaces_windows env = Except.error p := by
  unfold get_network_interfaces_windows
  cases hw : winWalk env.parseIpAddr env.adapters with
  | error e => exact ⟨e, rfl⟩
  | ok l =>
    refine ⟨RustPanic.failMsg "FIXME [windows] unable to get interface list".data, ?_⟩
    rw [h]

/-- Witness for C8 at an environment whose device-name query fails. -/
theorem c8_windows_names_query_fatal_witness :
    ∃ p, get_network_interfaces_windows winEnvNoNames = Except.error p :=
  c8_windows_names_query_fatal winEnvNoNames rfl

/-- C10: one malformed textual IPv4 address on any adapter record makes the
Windows enumeration panic (the unchecked `unwrap` on the parse), instead of
swallowing the per-record decode failure as the POSIX decoder does. -/
theorem c10_windows_ip_unwrap (env : WinEnv) (a : WinAdapter) (s : List Char)
    (ha : a ∈ env.adapters) (hs : s ∈ a.IpAddressList)
    (hbad : env.parseIpAddr s = none) :
    get_network_interfaces_windows env = Except.error RustPanic.unwrapNone := by
  unfold get_network_interfaces_windows
  rw [winWalk_error env.parseIpAddr env.adapters ⟨a, ha, s, hs, hbad⟩]

/-- Witness for C10 at an adapter carrying one malformed address string. -/
theorem c10_windows_ip_unwrap_witness :
    get_network_interfaces_windows winEnvBadIp = Except.error RustPanic.unwrapNone :=
  c10_windows_ip_unwrap winEnvBadIp winAdapterSample "256.0.0.1".data
    (List.mem_singleton.mpr rfl) (List.mem_singleton.mpr rfl) rfl
